import Mathlib

/-!
Verification of the on-completion engine of the tasks plugin
(src/Task/OnCompletion.ts).

The TypeScript source is shallowly embedded below:
- pure functions become Lean functions on `String` / `List Char`;
- the injected fire-and-forget `fileWriter` becomes an explicit log of
  `WriterCall` values returned alongside the task list, so that every
  invocation of the mutator (its path and its content transform) is
  observable in the result;
- the `throw` in `writeLineToListEnd` becomes `Except.error`;
- JavaScript reference identity (`!==` on `Task` objects) is modelled by a
  `ref : Nat` field: distinct live objects carry distinct `ref` values, and
  structural equality of the embedded records then coincides with JS
  reference equality.
-/

set_option autoImplicit false

namespace OnCompletion

/-- Coarse status categories. Modelled from the spec: the enum
`StatusType` lives in src/Statuses/StatusConfiguration.ts, which is not part
of the provided sources; the spec lists TODO, IN_PROGRESS, DONE among its
members, and the code under verification only compares values of this enum
for equality and against DONE. -/
inductive StatusType where
  | TODO
  | DONE
  | IN_PROGRESS
  | CANCELLED
  | NON_TASK
deriving DecidableEq

/-- The slice of a Status object read by OnCompletion.ts: its symbol (kept so
that two distinct DONE statuses are representable) and its coarse type. -/
structure Status where
  symbol : String
  type : StatusType
deriving DecidableEq

/-- The slice of a Task object read by OnCompletion.ts: status, description,
originating path, and the canonical file line (the value the method
`toFileLineString()` returns, embedded as a field since the code treats it
as an opaque observer). `ref` models JavaScript object identity. -/
structure Task where
  status : Status
  description : String
  path : String
  toFileLineString : String
  ref : Nat
deriving DecidableEq

/-- One invocation of the injected file-mutation callback: the target path
and the content transform passed to it. -/
structure WriterCall where
  path : String
  fileContentUpdater : String → String

/-- JavaScript `String.prototype.includes`: `s` contains `search` as a
contiguous substring (the empty search string is contained in every
string, as in JS). -/
def stringIncludes (s search : String) : Bool :=
  s.data.tails.any (fun t => search.data.isPrefixOf t)

/-- Character-level body of JavaScript `trimStart`: drop leading whitespace
characters. -/
def trimStartChars : List Char → List Char
  | [] => []
  | c :: rest => if c.isWhitespace then trimStartChars rest else c :: rest

/-- JavaScript `line.trimStart()`. -/
def jsTrimStart (s : String) : String :=
  String.mk (trimStartChars s.data)

/-- Character-level body of `removeCalloutPrefixes`: the loop
`while (lineOfText.substring(0, 2) === '> ') lineOfText = lineOfText.substring(2)`. -/
def removeCalloutPrefixesChars : List Char → List Char
  | [] => []
  | [c] => [c]
  | c :: d :: rest =>
    if c = '>' ∧ d = ' ' then removeCalloutPrefixesChars rest else c :: d :: rest

/-- Embeds `removeCalloutPrefixes` from OnCompletion.ts. -/
def removeCalloutPrefixes (lineOfText : String) : String :=
  String.mk (removeCalloutPrefixesChars lineOfText.data)

/-- Embeds `adjustLineForArchival` from OnCompletion.ts:
`removeCalloutPrefixes(changedStatusTaskLine.trimStart())`. -/
def adjustLineForArchival (changedStatusTaskLine : String) : String :=
  removeCalloutPrefixes (jsTrimStart changedStatusTaskLine)

/-- A line made of `n` repetitions of the two-character quote marker. -/
def quoteMarkers : Nat → List Char
  | 0 => []
  | n + 1 => '>' :: ' ' :: quoteMarkers n

/-- Does a character list begin with the two-character marker `>` space? -/
def startsWithQuoteMarker : List Char → Bool
  | c :: d :: _ => c = '>' ∧ d = ' '
  | _ => false

/-- Modelled from the spec: `appendToEndOfFile` lives in src/lib/FileWriter.ts,
which is not part of the provided sources. The spec describes the ToLogFile
transform as appending the line plus a trailing newline to the end of the
existing content, in particular turning the empty string into the line
followed by a newline. -/
def appendToEndOfFile (data textToAppend : String) : String :=
  data ++ textToAppend ++ "\n"

/-- Character-level body of JavaScript `String.prototype.split('\n')`:
splits at every newline; the empty string yields one empty line. -/
def splitCharsOnNewline : List Char → List (List Char)
  | [] => [[]]
  | c :: rest =>
    if c = '\n' then [] :: splitCharsOnNewline rest
    else
      match splitCharsOnNewline rest with
      | [] => [[c]]
      | l :: ls => (c :: l) :: ls

/-- Embeds `initialFileContent.split('\n')`. -/
def splitOnNewlines (s : String) : List String :=
  (splitCharsOnNewline s.data).map (fun cs => String.mk cs)

/-- Embeds `linesArray.join('\n')` at the character level. -/
def joinCharsNewline : List (List Char) → List Char
  | [] => []
  | [l] => l
  | l :: ls => l ++ '\n' :: joinCharsNewline ls

/-- Embeds `linesArray.join('\n')`. -/
def joinLines : List String → String
  | [] => ""
  | [l] => l
  | l :: ls => l ++ "\n" ++ joinLines ls

/-- JavaScript `Array.prototype.indexOf` restricted to the found case:
index of the first exact occurrence, `none` when absent (JS returns -1;
OnCompletion.ts immediately adds 1, which the embedding performs at the
use site). -/
def indexOfLine : List String → String → Option Nat
  | [], _ => none
  | l :: ls, s => if l = s then some 0 else (indexOfLine ls s).map (· + 1)

/-- Regex fragment `(> )*` of TASK_REGEX: greedily consume leading quote
markers. Backtracking to fewer repetitions can never help: after one fewer
repetition the remaining text starts with a character that neither the
space run nor the checkbox literal accepts, so greedy consumption is
equivalent to the regex semantics. -/
def stripQuotePairs : List Char → List Char
  | [] => []
  | [c] => [c]
  | c :: d :: rest =>
    if c = '>' ∧ d = ' ' then stripQuotePairs rest else c :: d :: rest

/-- Regex fragment ` *` of TASK_REGEX: greedily consume leading spaces
(again equivalent to backtracking semantics, since the checkbox literal
does not start with a space). -/
def stripLeadingSpaces : List Char → List Char
  | ' ' :: rest => stripLeadingSpaces rest
  | l => l

/-- Regex fragment `- \[.]` of TASK_REGEX: a dash, a space, an opening
bracket, any single character, a closing bracket. -/
def startsWithCheckbox : List Char → Bool
  | '-' :: ' ' :: '[' :: _ :: ']' :: _ => true
  | _ => false

/-- Embeds `thisLine.search(TASK_REGEX) !== -1` for
`TASK_REGEX = new RegExp('^(> )*( *(- \\[.]))')`: the line, after any
leading `> ` markers and then any leading spaces, begins with a checkbox. -/
def taskRegexAccepts (line : String) : Bool :=
  startsWithCheckbox (stripLeadingSpaces (stripQuotePairs line.data))

/-- The `for ... if (thisLine.search(TASK_REGEX) === -1) break` loop:
number of leading lines accepted by TASK_REGEX. -/
def countLeadingTasks : List String → Nat
  | [] => 0
  | line :: rest => if taskRegexAccepts line then countLeadingTasks rest + 1 else 0

/-- Embeds `writeLineToListEnd` from OnCompletion.ts. The JS function mutates
`linesArray[insertionLine - 1]`; when the heading is absent and no leading
line matches TASK_REGEX, `insertionLine` is 0 and the write targets array
index -1, which `join` ignores, so the joined lines come back unchanged —
the embedding reproduces this with the `insertionLine = 0` branch. -/
def writeLineToListEnd (initialFileContent targetListHeading textToAppend : String) :
    Except String String :=
  if textToAppend = "" then Except.ok initialFileContent
  else if targetListHeading = "" then
    Except.error "Cannot move line to list as empty target list heading was supplied"
  else
    let linesArray := splitOnNewlines initialFileContent
    let afterHeading :=
      match indexOfLine linesArray targetListHeading with
      | some i => i + 1
      | none => 0
    let insertionLine := afterHeading + countLeadingTasks (linesArray.drop afterHeading)
    if insertionLine = 0 then Except.ok (joinLines linesArray)
    else
      Except.ok (joinLines (linesArray.set (insertionLine - 1)
        (linesArray.getD (insertionLine - 1) "" ++ "\n" ++ textToAppend)))

/-- The transform OnCompletion.ts passes to the mutator on the
ToLogList/EndOfList branches. There the heading argument is the non-empty
literal and the error case of `writeLineToListEnd` is unreachable; the
embedding returns the data unchanged on that dead branch. -/
def writeLineToListEndD (data targetListHeading textToAppend : String) : String :=
  match writeLineToListEnd data targetListHeading textToAppend with
  | Except.ok s => s
  | Except.error _ => data

/-- Embeds `returnWithoutCompletedInstance` from OnCompletion.ts:
`tasks.filter((task) => task !== changedStatusTask)`. -/
def returnWithoutCompletedInstance (tasks : List Task) (changedStatusTask : Task) : List Task :=
  tasks.filter (fun task => task ≠ changedStatusTask)

/-- The trigger delimiter `' 🏁 '`. -/
def ocTrigger : String := " 🏁 "

/-- Body of `handleOnCompletion` after the empty-list early return, with
`changedStatusTask = tasks[tasks.length - 1]` already in hand. The second
component of the result is the log of mutator invocations. -/
def handleOnCompletionBody (task : Task) (tasks : List Task) (toLogFilePath : String)
    (changedStatusTask : Task) : List Task × List WriterCall :=
  if ¬ stringIncludes changedStatusTask.description ocTrigger
      ∨ changedStatusTask.status.type ≠ StatusType.DONE
      ∨ changedStatusTask.status.type = task.status.type then
    (tasks, [])
  else if stringIncludes changedStatusTask.description "🏁 Delete" then
    (returnWithoutCompletedInstance tasks changedStatusTask, [])
  else
    let textToWrite := adjustLineForArchival changedStatusTask.toFileLineString
    if stringIncludes changedStatusTask.description "🏁 ToLogFile" then
      (returnWithoutCompletedInstance tasks changedStatusTask,
        [{ path := toLogFilePath,
           fileContentUpdater := fun data => appendToEndOfFile data textToWrite }])
    else if stringIncludes changedStatusTask.description "🏁 ToLogList" then
      (returnWithoutCompletedInstance tasks changedStatusTask,
        [{ path := changedStatusTask.path,
           fileContentUpdater := fun data =>
             writeLineToListEndD data "## Archived Tasks - Appended" textToWrite }])
    else if stringIncludes changedStatusTask.description "🏁 EndOfList" then
      (returnWithoutCompletedInstance tasks changedStatusTask,
        [{ path := changedStatusTask.path,
           fileContentUpdater := fun data =>
             writeLineToListEndD data "## Archived Tasks - Appended" textToWrite }])
    else (tasks, [])

/-- Embeds `handleOnCompletion` from OnCompletion.ts. `tasks.getLast? = none` is
exactly the `tasksArrayLength === 0` early return. -/
def handleOnCompletion (task : Task) (tasks : List Task) (toLogFilePath : String) :
    List Task × List WriterCall :=
  match tasks.getLast? with
  | none => (tasks, [])
  | some changedStatusTask => handleOnCompletionBody task tasks toLogFilePath changedStatusTask

/-- The common result of the ToLogList and EndOfList branches: the list
without the changed task, plus one mutator invocation against the changed
task's own path whose transform inserts the normalized line under the
literal heading. -/
def archiveToOwnListResult (tasks : List Task) (changedStatusTask : Task) :
    List Task × List WriterCall :=
  (returnWithoutCompletedInstance tasks changedStatusTask,
    [{ path := changedStatusTask.path,
       fileContentUpdater := fun data =>
         writeLineToListEndD data "## Archived Tasks - Appended"
           (adjustLineForArchival changedStatusTask.toFileLineString) }])

def gateNoopWitnessOriginal : Task :=
  ⟨⟨"x", StatusType.DONE⟩, "t 🏁 Delete", "a.md", "- [x] t 🏁 Delete", 0⟩

def gateNoopWitnessChanged : Task :=
  ⟨⟨"X", StatusType.DONE⟩, "t 🏁 Delete", "a.md", "- [X] t 🏁 Delete", 1⟩

/-! ## Lemmas about the line normalizer -/

theorem removeCalloutPrefixesChars_of_not_marker (l : List Char)
    (h : startsWithQuoteMarker l = false) : removeCalloutPrefixesChars l = l := by
  match l with
  | [] => rfl
  | [c] => rfl
  | c :: d :: rest =>
    simp only [startsWithQuoteMarker, decide_eq_false_iff_not] at h
    simp [removeCalloutPrefixesChars, h]

theorem startsWithQuoteMarker_removeCalloutPrefixesChars (l : List Char) :
    startsWithQuoteMarker (removeCalloutPrefixesChars l) = false := by
  match l with
  | [] => rfl
  | [c] => simp [removeCalloutPrefixesChars, startsWithQuoteMarker]
  | c :: d :: rest =>
    by_cases h : c = '>' ∧ d = ' '
    · rw [removeCalloutPrefixesChars, if_pos h]
      exact startsWithQuoteMarker_removeCalloutPrefixesChars rest
    · rw [removeCalloutPrefixesChars, if_neg h]
      simp [startsWithQuoteMarker, h]

theorem removeCalloutPrefixesChars_idem (l : List Char) :
    removeCalloutPrefixesChars (removeCalloutPrefixesChars l) = removeCalloutPrefixesChars l :=
  removeCalloutPrefixesChars_of_not_marker _ (startsWithQuoteMarker_removeCalloutPrefixesChars l)

theorem removeCalloutPrefixesChars_isSuffix (l : List Char) :
    (removeCalloutPrefixesChars l).IsSuffix l := by
  match l with
  | [] => exact List.suffix_refl _
  | [c] => exact List.suffix_refl _
  | c :: d :: rest =>
    by_cases h : c = '>' ∧ d = ' '
    · rw [removeCalloutPrefixesChars, if_pos h]
      exact (removeCalloutPrefixesChars_isSuffix rest).trans ⟨[c, d], rfl⟩
    · rw [removeCalloutPrefixesChars, if_neg h]

theorem removeCalloutPrefixesChars_quoteMarkers (n : Nat) :
    removeCalloutPrefixesChars (quoteMarkers n) = [] := by
  match n with
  | 0 => rfl
  | n + 1 =>
    show removeCalloutPrefixesChars ('>' :: ' ' :: quoteMarkers n) = []
    rw [removeCalloutPrefixesChars, if_pos ⟨rfl, rfl⟩]
    exact removeCalloutPrefixesChars_quoteMarkers n

theorem data_mk (l : List Char) : (String.mk l).data = l := rfl

/-- C8 counterexample: the full normalizer `adjustLineForArchival` is not
idempotent. On a line where whitespace separates two quote markers, the
first application strips only the first marker and exposes leading
whitespace; a second application trims that whitespace and strips the
second marker, producing a different string. -/
theorem adjustLineForArchival_not_idempotent :
    adjustLineForArchival (adjustLineForArchival ">  > - [x] hi") ≠
      adjustLineForArchival ">  > - [x] hi" := by decide

/-- C8: `removeCalloutPrefixes` is idempotent on every input line — applying
it twice yields the same result as applying it once, whatever the number of
leading quote-marker repetitions. (The further statement of the claim, that
the full normalizer `adjustLineForArchival` is likewise idempotent, is
refuted by the counterexample above.) -/
theorem removeCalloutPrefixes_idempotent (s : String) :
    removeCalloutPrefixes (removeCalloutPrefixes s) = removeCalloutPrefixes s := by
  unfold removeCalloutPrefixes
  rw [data_mk]
  exact congrArg String.mk (removeCalloutPrefixesChars_idem s.data)

/-- C7 counterexample: the claim states the normalizer result starts neither
with whitespace nor with the quote marker. On a line whose quote marker is
followed by two spaces, the result keeps a leading space: the trim happens
once, before the marker stripping, and whitespace exposed by stripping is
not removed. -/
theorem adjustLineForArchival_leading_whitespace_counterexample :
    adjustLineForArchival ">  - [x] hi" = " - [x] hi" ∧
      (adjustLineForArchival ">  - [x] hi").data.head? = some ' ' ∧
      (' ').isWhitespace = true := by decide

/-- C7 (amended): `adjustLineForArchival` first trims leading whitespace,
then repeatedly strips the leading two-character quote marker. The result
never begins with the quote marker; the remaining text is preserved
verbatim (the result is a suffix of the trimmed line); a line that, after
the trim, carries no quote marker is returned unchanged after the trim;
and a line consisting entirely of quote markers reduces to the empty
string. (The result may still begin with whitespace when whitespace
follows a quote marker, as the counterexample shows.) -/
theorem adjustLineForArchival_normalization (s : String) :
    startsWithQuoteMarker (adjustLineForArchival s).data = false ∧
      (adjustLineForArchival s).data.IsSuffix (jsTrimStart s).data ∧
      (startsWithQuoteMarker (jsTrimStart s).data = false →
        adjustLineForArchival s = jsTrimStart s) ∧
      (∀ n, adjustLineForArchival (String.mk (quoteMarkers n)) = "") := by
  refine ⟨?_, ?_, ?_, ?_⟩
  · exact startsWithQuoteMarker_removeCalloutPrefixesChars _
  · exact removeCalloutPrefixesChars_isSuffix _
  · intro h
    unfold adjustLineForArchival removeCalloutPrefixes
    rw [removeCalloutPrefixesChars_of_not_marker _ h]
  · intro n
    unfold adjustLineForArchival jsTrimStart removeCalloutPrefixes
    rw [data_mk]
    have htrim : trimStartChars (quoteMarkers n) = quoteMarkers n := by
      match n with
      | 0 => rfl
      | n + 1 =>
        show trimStartChars ('>' :: ' ' :: quoteMarkers n) = '>' :: ' ' :: quoteMarkers n
        simp [trimStartChars]
    rw [htrim, removeCalloutPrefixesChars_quoteMarkers]

theorem adjustLineForArchival_normalization_witness :
    startsWithQuoteMarker (adjustLineForArchival "> > - [ ] t").data = false ∧
      (adjustLineForArchival "> > - [ ] t").data.IsSuffix (jsTrimStart "> > - [ ] t").data ∧
      (startsWithQuoteMarker (jsTrimStart "  hello").data = false →
        adjustLineForArchival "  hello" = jsTrimStart "  hello") ∧
      adjustLineForArchival (String.mk (quoteMarkers 3)) = "" := by
  refine ⟨(adjustLineForArchival_normalization "> > - [ ] t").1,
    (adjustLineForArchival_normalization "> > - [ ] t").2.1,
    (adjustLineForArchival_normalization "  hello").2.2.1,
    (adjustLineForArchival_normalization "x").2.2.2 3⟩

/-- C6 counterexample: the claim requires a configuration error for the
empty target heading for every `textToAppend`, but the empty-text no-op
guard runs first — with both arguments empty the function returns the
content unchanged instead of signalling the error. -/
theorem writeLineToListEnd_empty_heading_empty_text_counterexample :
    writeLineToListEnd "x" "" "" = Except.ok "x" := rfl

/-- C6 (amended): if `textToAppend` is empty, `writeLineToListEnd` returns
the file text unchanged (a no-op, not an error), whatever the heading; if
the target heading is empty and `textToAppend` is non-empty, it signals a
configuration error. (With both empty, the no-op guard wins, as the
counterexample shows.) -/
theorem writeLineToListEnd_guard_contract (fileText heading text : String) :
    (text = "" → writeLineToListEnd fileText heading text = Except.ok fileText) ∧
      (heading = "" → text ≠ "" →
        writeLineToListEnd fileText heading text =
          Except.error "Cannot move line to list as empty target list heading was supplied") := by
  constructor
  · intro h
    unfold writeLineToListEnd
    rw [if_pos h]
  · intro hh ht
    unfold writeLineToListEnd
    rw [if_neg ht, if_pos hh]

theorem writeLineToListEnd_guard_contract_witness :
    writeLineToListEnd "abc" "## Heading" "" = Except.ok "abc" ∧
      writeLineToListEnd "abc" "" "- [x] t" =
        Except.error "Cannot move line to list as empty target list heading was supplied" :=
  ⟨(writeLineToListEnd_guard_contract "abc" "## Heading" "").1 rfl,
    (writeLineToListEnd_guard_contract "abc" "" "- [x] t").2 rfl (by decide)⟩

/-! ## Lemmas about line splitting, joining and insertion -/

theorem joinLines_cons (a : String) (l : List String) (h : l ≠ []) :
    joinLines (a :: l) = a ++ "\n" ++ joinLines l := by
  match l with
  | [] => exact absurd rfl h
  | b :: t => simp [joinLines]

theorem splitCharsOnNewline_ne_nil (cs : List Char) : splitCharsOnNewline cs ≠ [] := by
  match cs with
  | [] => simp [splitCharsOnNewline]
  | c :: rest =>
    by_cases h : c = '\n'
    · simp [splitCharsOnNewline, h]
    · simp only [splitCharsOnNewline, if_neg h]
      cases hs : splitCharsOnNewline rest <;> simp

theorem joinCharsNewline_splitCharsOnNewline (cs : List Char) :
    joinCharsNewline (splitCharsOnNewline cs) = cs := by
  induction cs with
  | nil => rfl
  | cons c rest ih =>
    by_cases h : c = '\n'
    · subst h
      simp only [splitCharsOnNewline, if_pos rfl]
      cases hs : splitCharsOnNewline rest with
      | nil => exact absurd hs (splitCharsOnNewline_ne_nil rest)
      | cons l ls =>
        rw [hs] at ih
        simp [joinCharsNewline, ih]
    · simp only [splitCharsOnNewline, if_neg h]
      cases hs : splitCharsOnNewline rest with
      | nil => exact absurd hs (splitCharsOnNewline_ne_nil rest)
      | cons l ls =>
        rw [hs] at ih
        cases ls with
        | nil =>
          simp only [joinCharsNewline] at ih ⊢
          exact congrArg (c :: ·) ih
        | cons l2 ls2 =>
          simp only [joinCharsNewline] at ih ⊢
          rw [← ih]
          simp

theorem joinLines_map_mk (ls : List (List Char)) :
    joinLines (ls.map (fun cs => String.mk cs)) = String.mk (joinCharsNewline ls) := by
  match ls with
  | [] => rfl
  | [l] => rfl
  | l :: l2 :: t =>
    have ih := joinLines_map_mk (l2 :: t)
    simp only [List.map_cons] at ih ⊢
    rw [show joinLines (String.mk l :: String.mk l2 :: List.map (fun cs => String.mk cs) t) =
      String.mk l ++ "\n" ++ joinLines (String.mk l2 :: List.map (fun cs => String.mk cs) t)
      from by simp [joinLines]]
    rw [ih]
    show String.mk ((l ++ ['\n']) ++ joinCharsNewline (l2 :: t)) =
      String.mk (joinCharsNewline (l :: l2 :: t))
    simp [joinCharsNewline]

theorem joinLines_splitOnNewlines (s : String) : joinLines (splitOnNewlines s) = s := by
  unfold splitOnNewlines
  rw [joinLines_map_mk, joinCharsNewline_splitCharsOnNewline]

theorem indexOfLine_lt_length (l : List String) (s : String) (i : Nat)
    (h : indexOfLine l s = some i) : i < l.length := by
  induction l generalizing i with
  | nil => simp [indexOfLine] at h
  | cons a t ih =>
    by_cases ha : a = s
    · simp only [indexOfLine, if_pos ha, Option.some.injEq] at h
      subst h
      simp
    · simp only [indexOfLine, if_neg ha, Option.map_eq_some'] at h
      obtain ⟨j, hj, rfl⟩ := h
      have := ih j hj
      simp only [List.length_cons]
      omega

theorem countLeadingTasks_le_length (l : List String) : countLeadingTasks l ≤ l.length := by
  induction l with
  | nil => simp [countLeadingTasks]
  | cons a t ih =>
    by_cases h : taskRegexAccepts a
    · simp only [countLeadingTasks, if_pos h, List.length_cons]
      omega
    · simp only [countLeadingTasks, if_neg h, List.length_cons]
      omega

theorem joinLines_set_append (l : List String) (j : Nat) (t : String) (hj : j < l.length) :
    joinLines (l.set j (l.getD j "" ++ "\n" ++ t)) =
      joinLines (l.take (j + 1) ++ t :: l.drop (j + 1)) := by
  induction l generalizing j with
  | nil => simp at hj
  | cons a ls ih =>
    cases j with
    | zero =>
      cases ls with
      | nil => simp [joinLines, String.append_assoc]
      | cons b t' => simp [joinLines, String.append_assoc]
    | succ j =>
      have hj' : j < ls.length := by simpa using hj
      have hls : ls ≠ [] := by
        intro h
        subst h
        simp at hj'
      have h1 : (a :: ls).set (j + 1) ((a :: ls).getD (j + 1) "" ++ "\n" ++ t) =
          a :: ls.set j (ls.getD j "" ++ "\n" ++ t) := by
        simp [List.getD]
      rw [h1, List.take_succ_cons, List.drop_succ_cons, List.cons_append]
      have hset : ls.set j (ls.getD j "" ++ "\n" ++ t) ≠ [] := by
        intro h
        apply hls
        have := congrArg List.length h
        simpa [List.length_set] using this
      have happ : ls.take (j + 1) ++ t :: ls.drop (j + 1) ≠ [] := by simp
      rw [joinLines_cons a _ hset, joinLines_cons a _ happ, ih j hj']

/-- C4: when the heading occurs in the file (at first occurrence index `i`)
and both the heading and the text are non-empty, `writeLineToListEnd`
returns the original lines unchanged and in order with `textToAppend`
inserted as one new line directly after the contiguous block of
list-item-shaped lines that follows the heading (the block of length
`countLeadingTasks`, zero when no such line follows — then the text lands
directly after the heading itself). The heading line is never modified, no
line is reordered, and the position depends only on the block length,
whatever follows the block and whatever the indentation or quote depth of
its lines. -/
theorem writeLineToListEnd_inserts_after_list_block
    (fileText headingLine textToAppend : String)
    (hne : textToAppend ≠ "") (hh : headingLine ≠ "") (i : Nat)
    (hi : indexOfLine (splitOnNewlines fileText) headingLine = some i) :
    writeLineToListEnd fileText headingLine textToAppend =
      Except.ok (joinLines
        ((splitOnNewlines fileText).take
            (i + 1 + countLeadingTasks ((splitOnNewlines fileText).drop (i + 1))) ++
          textToAppend ::
            (splitOnNewlines fileText).drop
              (i + 1 + countLeadingTasks ((splitOnNewlines fileText).drop (i + 1))))) := by
  have hilen : i < (splitOnNewlines fileText).length := indexOfLine_lt_length _ _ _ hi
  have hklen : countLeadingTasks ((splitOnNewlines fileText).drop (i + 1)) ≤
      (splitOnNewlines fileText).length - (i + 1) := by
    have h := countLeadingTasks_le_length ((splitOnNewlines fileText).drop (i + 1))
    simpa using h
  unfold writeLineToListEnd
  rw [if_neg hne, if_neg hh]
  simp only [hi]
  have hcond : ¬(i + 1 + countLeadingTasks (List.drop (i + 1) (splitOnNewlines fileText)) = 0) :=
    by omega
  rw [if_neg hcond]
  have harith : i + 1 + countLeadingTasks (List.drop (i + 1) (splitOnNewlines fileText)) - 1 =
      i + countLeadingTasks (List.drop (i + 1) (splitOnNewlines fileText)) := by omega
  rw [harith]
  have hlt : i + countLeadingTasks (List.drop (i + 1) (splitOnNewlines fileText)) <
      (splitOnNewlines fileText).length := by omega
  rw [joinLines_set_append _ _ _ hlt]
  have harith2 : i + countLeadingTasks (List.drop (i + 1) (splitOnNewlines fileText)) + 1 =
      i + 1 + countLeadingTasks (List.drop (i + 1) (splitOnNewlines fileText)) := by omega
  rw [harith2]

theorem writeLineToListEnd_inserts_after_list_block_witness :
    ("- [-] new" : String) ≠ "" ∧ ("## MY TASK LIST" : String) ≠ "" ∧
      indexOfLine (splitOnNewlines "pre\n## MY TASK LIST\n- [ ] item\n\nFinal line.")
        "## MY TASK LIST" = some 1 ∧
      writeLineToListEnd "pre\n## MY TASK LIST\n- [ ] item\n\nFinal line."
          "## MY TASK LIST" "- [-] new" =
        Except.ok (joinLines
          ((splitOnNewlines "pre\n## MY TASK LIST\n- [ ] item\n\nFinal line.").take 3 ++
            "- [-] new" ::
              (splitOnNewlines "pre\n## MY TASK LIST\n- [ ] item\n\nFinal line.").drop 3)) :=
  ⟨by decide, by decide, by decide,
    writeLineToListEnd_inserts_after_list_block
      "pre\n## MY TASK LIST\n- [ ] item\n\nFinal line." "## MY TASK LIST" "- [-] new"
      (by decide) (by decide) 1 (by decide)⟩

/-- C5 counterexample: with the heading absent and a first line that is not
list-item-shaped, the claim says the text is inserted before the first
line; the code instead writes to array index -1 (invisible to join) and
returns the content unchanged — the text is not inserted anywhere. -/
theorem writeLineToListEnd_missing_heading_counterexample :
    writeLineToListEnd "hello" "## Archive" "- [x] done" = Except.ok "hello" ∧
      ("hello" : String) ≠ "- [x] done" ++ "\n" ++ "hello" :=
  ⟨rfl, by decide⟩

/-- C5 (amended): when the heading does not occur in the file, the index
arithmetic starts the cursor at line 0. When the file starts with a
contiguous block of list-item-shaped lines, the text is inserted directly
after that block; when the first line is not list-item-shaped, the write
targets the nonexistent line before the file and the file text is returned
unchanged — the text is lost, not inserted before the first line. -/
theorem writeLineToListEnd_missing_heading_behavior
    (fileText headingLine textToAppend : String)
    (hne : textToAppend ≠ "") (hh : headingLine ≠ "")
    (habs : indexOfLine (splitOnNewlines fileText) headingLine = none) :
    (countLeadingTasks (splitOnNewlines fileText) = 0 →
      writeLineToListEnd fileText headingLine textToAppend = Except.ok fileText) ∧
      (0 < countLeadingTasks (splitOnNewlines fileText) →
        writeLineToListEnd fileText headingLine textToAppend =
          Except.ok (joinLines
            ((splitOnNewlines fileText).take (countLeadingTasks (splitOnNewlines fileText)) ++
              textToAppend ::
                (splitOnNewlines fileText).drop
                  (countLeadingTasks (splitOnNewlines fileText))))) := by
  constructor
  · intro h0
    unfold writeLineToListEnd
    rw [if_neg hne, if_neg hh]
    simp only [habs, Nat.zero_add, List.drop_zero]
    rw [if_pos h0, joinLines_splitOnNewlines]
  · intro hpos
    have hklen : countLeadingTasks (splitOnNewlines fileText) ≤
        (splitOnNewlines fileText).length := countLeadingTasks_le_length _
    unfold writeLineToListEnd
    rw [if_neg hne, if_neg hh]
    simp only [habs, Nat.zero_add, List.drop_zero]
    have hcond : ¬(countLeadingTasks (splitOnNewlines fileText) = 0) := by omega
    rw [if_neg hcond]
    have hlt : countLeadingTasks (splitOnNewlines fileText) - 1 <
        (splitOnNewlines fileText).length := by omega
    rw [joinLines_set_append _ _ _ hlt]
    have harith : countLeadingTasks (splitOnNewlines fileText) - 1 + 1 =
        countLeadingTasks (splitOnNewlines fileText) := by omega
    rw [harith]

theorem writeLineToListEnd_missing_heading_behavior_witness :
    writeLineToListEnd "hello" "## Archive" "- [x] done" = Except.ok "hello" ∧
      writeLineToListEnd "- [ ] a\nrest" "## Archive" "- [x] done" =
        Except.ok (joinLines
          ((splitOnNewlines "- [ ] a\nrest").take 1 ++
            "- [x] done" :: (splitOnNewlines "- [ ] a\nrest").drop 1)) :=
  ⟨(writeLineToListEnd_missing_heading_behavior "hello" "## Archive" "- [x] done"
      (by decide) (by decide) (by decide)).1 (by decide),
    (writeLineToListEnd_missing_heading_behavior "- [ ] a\nrest" "## Archive" "- [x] done"
      (by decide) (by decide) (by decide)).2 (by decide)⟩

/-! ## Lemmas about handleOnCompletion -/

theorem handleOnCompletion_of_getLast (task : Task) (tasks : List Task) (p : String)
    (last : Task) (h : tasks.getLast? = some last) :
    handleOnCompletion task tasks p = handleOnCompletionBody task tasks p last := by
  unfold handleOnCompletion
  rw [h]

theorem returnWithoutCompletedInstance_eq_dropLast (tasks : List Task) (last : Task)
    (h : tasks.getLast? = some last) (hnd : last ∉ tasks.dropLast) :
    returnWithoutCompletedInstance tasks last = tasks.dropLast := by
  induction tasks with
  | nil => simp at h
  | cons a t ih =>
    cases t with
    | nil =>
      simp only [List.getLast?_singleton, Option.some.injEq] at h
      subst h
      simp [returnWithoutCompletedInstance]
    | cons b t' =>
      rw [List.getLast?_cons_cons] at h
      have hdl : (a :: b :: t').dropLast = a :: (b :: t').dropLast := rfl
      rw [hdl] at hnd ⊢
      simp only [List.mem_cons, not_or] at hnd
      obtain ⟨hne, hnd'⟩ := hnd
      unfold returnWithoutCompletedInstance at ih ⊢
      rw [List.filter_cons]
      have hpa : (decide ¬(a = last)) = true :=
        decide_eq_true (fun hh => hne hh.symm)
      rw [if_pos hpa]
      exact congrArg (a :: ·) (ih h hnd')

theorem handleOnCompletion_writer_silent (task : Task) (tasks : List Task) (p : String)
    (last : Task) (hlast : tasks.getLast? = some last)
    (h : stringIncludes last.description "🏁 Delete" = true
        ∨ last.status.type ≠ StatusType.DONE
        ∨ (stringIncludes last.description "🏁 ToLogFile" = false
            ∧ stringIncludes last.description "🏁 ToLogList" = false
            ∧ stringIncludes last.description "🏁 EndOfList" = false)) :
    (handleOnCompletion task tasks p).2 = [] := by
  rw [handleOnCompletion_of_getLast task tasks p last hlast]
  unfold handleOnCompletionBody
  by_cases hgate : ¬ stringIncludes last.description ocTrigger
      ∨ last.status.type ≠ StatusType.DONE
      ∨ last.status.type = task.status.type
  · rw [if_pos hgate]
  · rw [if_neg hgate]
    push_neg at hgate
    rcases h with hdel | hnd | ⟨h1, h2, h3⟩
    · rw [if_pos hdel]
    · exact absurd hgate.2.1 hnd
    · by_cases hdel : stringIncludes last.description "🏁 Delete" = true
      · rw [if_pos hdel]
      · rw [if_neg hdel]
        simp only []
        have hn1 : ¬(stringIncludes last.description "🏁 ToLogFile" = true) := by simp [h1]
        have hn2 : ¬(stringIncludes last.description "🏁 ToLogList" = true) := by simp [h2]
        have hn3 : ¬(stringIncludes last.description "🏁 EndOfList" = true) := by simp [h3]
        rw [if_neg hn1, if_neg hn2, if_neg hn3]

/-- C1: the transition gate. The successor list is returned unchanged, with
no mutator invocation, whenever the list is empty, or the last element's
description lacks the space-padded trigger delimiter, or the last element's
status type is not DONE, or the last element's status type equals the
original task's status type. The decision reads the trigger only from the
last element's description: replacing the original task's description by
any string leaves the result unchanged. -/
theorem handleOnCompletion_gate_noop (task : Task) (tasks : List Task) (p d : String)
    (h : tasks.getLast? = none ∨
        ∃ last, tasks.getLast? = some last ∧
          (¬ stringIncludes last.description ocTrigger
            ∨ last.status.type ≠ StatusType.DONE
            ∨ last.status.type = task.status.type)) :
    handleOnCompletion task tasks p = (tasks, []) ∧
      handleOnCompletion { task with description := d } tasks p = (tasks, []) := by
  have main : ∀ tk : Task, tk.status = task.status →
      handleOnCompletion tk tasks p = (tasks, []) := by
    intro tk htk
    rcases h with hnone | ⟨last, hlast, hcond⟩
    · unfold handleOnCompletion
      rw [hnone]
    · rw [handleOnCompletion_of_getLast tk tasks p last hlast]
      unfold handleOnCompletionBody
      have hc : ¬ stringIncludes last.description ocTrigger
          ∨ last.status.type ≠ StatusType.DONE
          ∨ last.status.type = tk.status.type := by
        rcases hcond with h1 | h2 | h3
        · exact Or.inl h1
        · exact Or.inr (Or.inl h2)
        · exact Or.inr (Or.inr (h3.trans (congrArg Status.type htk).symm))
      rw [if_pos hc]
  exact ⟨main task rfl, main { task with description := d } rfl⟩

theorem handleOnCompletion_gate_noop_witness :
    ([gateNoopWitnessChanged].getLast? = none ∨
      ∃ last, [gateNoopWitnessChanged].getLast? = some last ∧
        (¬ stringIncludes last.description ocTrigger
          ∨ last.status.type ≠ StatusType.DONE
          ∨ last.status.type = gateNoopWitnessOriginal.status.type)) ∧
      handleOnCompletion gateNoopWitnessOriginal [gateNoopWitnessChanged] "archive.md" =
        ([gateNoopWitnessChanged], []) := by
  have h : [gateNoopWitnessChanged].getLast? = none ∨
      ∃ last, [gateNoopWitnessChanged].getLast? = some last ∧
        (¬ stringIncludes last.description ocTrigger
          ∨ last.status.type ≠ StatusType.DONE
          ∨ last.status.type = gateNoopWitnessOriginal.status.type) :=
    Or.inr ⟨gateNoopWitnessChanged, by decide, Or.inr (Or.inr (by decide))⟩
  exact ⟨h,
    (handleOnCompletion_gate_noop gateNoopWitnessOriginal [gateNoopWitnessChanged]
      "archive.md" "other" h).1⟩

/-- C2: the Delete action. When the gate passes (trigger delimiter present,
last element newly of DONE type) and the last element's description contains
the Delete trigger, the result is the input list with the changed (last)
task removed, the remaining elements unchanged and in order, and the
injected fileWriter is never invoked. In particular a one-element list
yields the empty list and a two-element list yields the input minus its
last element. (`hnodup` states that the changed object does not also occur
earlier in the list, the JS situation of distinct array elements.) -/
theorem handleOnCompletion_delete (task : Task) (tasks : List Task) (p : String) (last : Task)
    (hlast : tasks.getLast? = some last)
    (htrig : stringIncludes last.description ocTrigger = true)
    (hdone : last.status.type = StatusType.DONE)
    (hchanged : last.status.type ≠ task.status.type)
    (hdel : stringIncludes last.description "🏁 Delete" = true)
    (hnodup : last ∉ tasks.dropLast) :
    handleOnCompletion task tasks p = (tasks.dropLast, []) := by
  rw [handleOnCompletion_of_getLast task tasks p last hlast]
  unfold handleOnCompletionBody
  have hgate : ¬(¬ stringIncludes last.description ocTrigger
      ∨ last.status.type ≠ StatusType.DONE
      ∨ last.status.type = task.status.type) := by
    intro hor
    rcases hor with h1 | h2 | h3
    · exact h1 htrig
    · exact h2 hdone
    · exact hchanged h3
  rw [if_neg hgate, if_pos hdel,
    returnWithoutCompletedInstance_eq_dropLast tasks last hlast hnodup]

theorem handleOnCompletion_delete_witness :
    (([⟨⟨" ", StatusType.TODO⟩, "Do 🏁 Delete", "a.md", "- [ ] next", 2⟩,
        ⟨⟨"x", StatusType.DONE⟩, "Do 🏁 Delete", "a.md", "- [x] Do 🏁 Delete", 1⟩] :
      List Task).getLast? =
        some ⟨⟨"x", StatusType.DONE⟩, "Do 🏁 Delete", "a.md", "- [x] Do 🏁 Delete", 1⟩) ∧
      handleOnCompletion ⟨⟨" ", StatusType.TODO⟩, "Do 🏁 Delete", "a.md", "- [ ] Do 🏁 Delete", 0⟩
          [⟨⟨" ", StatusType.TODO⟩, "Do 🏁 Delete", "a.md", "- [ ] next", 2⟩,
            ⟨⟨"x", StatusType.DONE⟩, "Do 🏁 Delete", "a.md", "- [x] Do 🏁 Delete", 1⟩]
          "archive.md" =
        ([⟨⟨" ", StatusType.TODO⟩, "Do 🏁 Delete", "a.md", "- [ ] next", 2⟩], []) :=
  ⟨by decide,
    handleOnCompletion_delete
      ⟨⟨" ", StatusType.TODO⟩, "Do 🏁 Delete", "a.md", "- [ ] Do 🏁 Delete", 0⟩
      [⟨⟨" ", StatusType.TODO⟩, "Do 🏁 Delete", "a.md", "- [ ] next", 2⟩,
        ⟨⟨"x", StatusType.DONE⟩, "Do 🏁 Delete", "a.md", "- [x] Do 🏁 Delete", 1⟩]
      "archive.md"
      ⟨⟨"x", StatusType.DONE⟩, "Do 🏁 Delete", "a.md", "- [x] Do 🏁 Delete", 1⟩
      (by decide) (by decide) (by decide) (by decide) (by decide) (by decide)⟩

/-- C3: the ToLogFile action. When the gate passes, the Delete trigger is
absent and the ToLogFile trigger present, the injected mutator is invoked
exactly once, against the log-file path, with a transform appending the
normalized completed line plus a trailing newline to the existing content
(turning the empty string into the line followed by a newline), and the
result list is the input minus the changed task. Moreover the mutator is
invoked zero times whenever the Delete trigger is present, or the last
status type is not DONE, or none of the three writing triggers occurs in
the last description (unrecognized or empty trigger names). -/
theorem handleOnCompletion_toLogFile (task : Task) (tasks : List Task) (p : String) (last : Task)
    (hlast : tasks.getLast? = some last)
    (htrig : stringIncludes last.description ocTrigger = true)
    (hdone : last.status.type = StatusType.DONE)
    (hchanged : last.status.type ≠ task.status.type)
    (hnodel : stringIncludes last.description "🏁 Delete" = false)
    (hlog : stringIncludes last.description "🏁 ToLogFile" = true)
    (hnodup : last ∉ tasks.dropLast) :
    handleOnCompletion task tasks p =
      (tasks.dropLast,
        [{ path := p,
           fileContentUpdater := fun data =>
             appendToEndOfFile data (adjustLineForArchival last.toFileLineString) }]) ∧
      (∀ data, appendToEndOfFile data (adjustLineForArchival last.toFileLineString) =
        data ++ adjustLineForArchival last.toFileLineString ++ "\n") ∧
      appendToEndOfFile "" (adjustLineForArchival last.toFileLineString) =
        adjustLineForArchival last.toFileLineString ++ "\n" ∧
      (∀ (task2 : Task) (tasks2 : List Task) (p2 : String) (last2 : Task),
        tasks2.getLast? = some last2 →
        (stringIncludes last2.description "🏁 Delete" = true
          ∨ last2.status.type ≠ StatusType.DONE
          ∨ (stringIncludes last2.description "🏁 ToLogFile" = false
              ∧ stringIncludes last2.description "🏁 ToLogList" = false
              ∧ stringIncludes last2.description "🏁 EndOfList" = false)) →
        (handleOnCompletion task2 tasks2 p2).2 = []) := by
  refine ⟨?_, fun _ => rfl, ?_, fun task2 tasks2 p2 last2 hl2 hcase =>
    handleOnCompletion_writer_silent task2 tasks2 p2 last2 hl2 hcase⟩
  · rw [handleOnCompletion_of_getLast task tasks p last hlast]
    unfold handleOnCompletionBody
    have hgate : ¬(¬ stringIncludes last.description ocTrigger
        ∨ last.status.type ≠ StatusType.DONE
        ∨ last.status.type = task.status.type) := by
      intro hor
      rcases hor with h1 | h2 | h3
      · exact h1 htrig
      · exact h2 hdone
      · exact hchanged h3
    have hdelneg : ¬(stringIncludes last.description "🏁 Delete" = true) := by simp [hnodel]
    rw [if_neg hgate, if_neg hdelneg]
    simp only []
    rw [if_pos hlog,
      returnWithoutCompletedInstance_eq_dropLast tasks last hlast hnodup]
  · show ("" : String) ++ adjustLineForArchival last.toFileLineString ++ "\n" =
      adjustLineForArchival last.toFileLineString ++ "\n"
    have h0 : ("" : String) ++ adjustLineForArchival last.toFileLineString =
        adjustLineForArchival last.toFileLineString := by
      cases hs : adjustLineForArchival last.toFileLineString
      rfl
    rw [h0]

theorem handleOnCompletion_toLogFile_witness :
    (([⟨⟨"x", StatusType.DONE⟩, "Log 🏁 ToLogFile", "a.md", "> - [x] Log 🏁 ToLogFile", 1⟩] :
      List Task).getLast? =
        some ⟨⟨"x", StatusType.DONE⟩, "Log 🏁 ToLogFile", "a.md", "> - [x] Log 🏁 ToLogFile", 1⟩) ∧
      handleOnCompletion ⟨⟨" ", StatusType.TODO⟩, "Log 🏁 ToLogFile", "a.md", "- [ ] Log", 0⟩
          [⟨⟨"x", StatusType.DONE⟩, "Log 🏁 ToLogFile", "a.md", "> - [x] Log 🏁 ToLogFile", 1⟩]
          "archive.md" =
        ([],
          [{ path := "archive.md",
             fileContentUpdater := fun data =>
               appendToEndOfFile data (adjustLineForArchival "> - [x] Log 🏁 ToLogFile") }]) :=
  ⟨by decide,
    (handleOnCompletion_toLogFile
      ⟨⟨" ", StatusType.TODO⟩, "Log 🏁 ToLogFile", "a.md", "- [ ] Log", 0⟩
      [⟨⟨"x", StatusType.DONE⟩, "Log 🏁 ToLogFile", "a.md", "> - [x] Log 🏁 ToLogFile", 1⟩]
      "archive.md"
      ⟨⟨"x", StatusType.DONE⟩, "Log 🏁 ToLogFile", "a.md", "> - [x] Log 🏁 ToLogFile", 1⟩
      (by decide) (by decide) (by decide) (by decide) (by decide) (by decide) (by decide)).1⟩

/-- C9: on every input on which the EndOfList branch fires (gate passed, no
Delete, no ToLogFile, no ToLogList, EndOfList trigger present), the result
is exactly the result of the ToLogList branch on its inputs: the same
returned list (input minus the changed task) and one mutator invocation
against the changed task's own originating path, with the same heading
literal and the same `writeLineToListEnd` transform applied to the same
normalized line — captured by both branches being equal to the common
`archiveToOwnListResult`. -/
theorem handleOnCompletion_endOfList_eq_toLogList (task : Task) (tasks : List Task) (p : String)
    (last : Task)
    (hlast : tasks.getLast? = some last)
    (htrig : stringIncludes last.description ocTrigger = true)
    (hdone : last.status.type = StatusType.DONE)
    (hchanged : last.status.type ≠ task.status.type)
    (hnodel : stringIncludes last.description "🏁 Delete" = false)
    (hnofile : stringIncludes last.description "🏁 ToLogFile" = false) :
    (stringIncludes last.description "🏁 ToLogList" = true →
      handleOnCompletion task tasks p = archiveToOwnListResult tasks last) ∧
      (stringIncludes last.description "🏁 ToLogList" = false →
        stringIncludes last.description "🏁 EndOfList" = true →
        handleOnCompletion task tasks p = archiveToOwnListResult tasks last) := by
  have hgate : ¬(¬ stringIncludes last.description ocTrigger
      ∨ last.status.type ≠ StatusType.DONE
      ∨ last.status.type = task.status.type) := by
    intro hor
    rcases hor with h1 | h2 | h3
    · exact h1 htrig
    · exact h2 hdone
    · exact hchanged h3
  have hdelneg : ¬(stringIncludes last.description "🏁 Delete" = true) := by simp [hnodel]
  have hfileneg : ¬(stringIncludes last.description "🏁 ToLogFile" = true) := by simp [hnofile]
  constructor
  · intro hlist
    rw [handleOnCompletion_of_getLast task tasks p last hlast]
    unfold handleOnCompletionBody
    rw [if_neg hgate, if_neg hdelneg]
    simp only []
    rw [if_neg hfileneg, if_pos hlist]
    rfl
  · intro hnolist hend
    rw [handleOnCompletion_of_getLast task tasks p last hlast]
    unfold handleOnCompletionBody
    rw [if_neg hgate, if_neg hdelneg]
    simp only []
    have hlistneg : ¬(stringIncludes last.description "🏁 ToLogList" = true) := by
      simp [hnolist]
    rw [if_neg hfileneg, if_neg hlistneg, if_pos hend]
    rfl

theorem handleOnCompletion_endOfList_eq_toLogList_witness :
    handleOnCompletion ⟨⟨" ", StatusType.TODO⟩, "t 🏁 ToLogList", "n.md", "- [ ] t", 0⟩
        [⟨⟨"x", StatusType.DONE⟩, "t 🏁 ToLogList", "n.md", "- [x] t 🏁 ToLogList", 1⟩]
        "archive.md" =
      archiveToOwnListResult
        [⟨⟨"x", StatusType.DONE⟩, "t 🏁 ToLogList", "n.md", "- [x] t 🏁 ToLogList", 1⟩]
        ⟨⟨"x", StatusType.DONE⟩, "t 🏁 ToLogList", "n.md", "- [x] t 🏁 ToLogList", 1⟩ ∧
      handleOnCompletion ⟨⟨" ", StatusType.TODO⟩, "t 🏁 EndOfList", "n.md", "- [ ] t", 0⟩
          [⟨⟨"x", StatusType.DONE⟩, "t 🏁 EndOfList", "n.md", "- [x] t 🏁 EndOfList", 1⟩]
          "archive.md" =
        archiveToOwnListResult
          [⟨⟨"x", StatusType.DONE⟩, "t 🏁 EndOfList", "n.md", "- [x] t 🏁 EndOfList", 1⟩]
          ⟨⟨"x", StatusType.DONE⟩, "t 🏁 EndOfList", "n.md", "- [x] t 🏁 EndOfList", 1⟩ :=
  ⟨(handleOnCompletion_endOfList_eq_toLogList
      ⟨⟨" ", StatusType.TODO⟩, "t 🏁 ToLogList", "n.md", "- [ ] t", 0⟩
      [⟨⟨"x", StatusType.DONE⟩, "t 🏁 ToLogList", "n.md", "- [x] t 🏁 ToLogList", 1⟩]
      "archive.md"
      ⟨⟨"x", StatusType.DONE⟩, "t 🏁 ToLogList", "n.md", "- [x] t 🏁 ToLogList", 1⟩
      (by decide) (by decide) (by decide) (by decide) (by decide) (by decide)).1 (by decide),
    (handleOnCompletion_endOfList_eq_toLogList
      ⟨⟨" ", StatusType.TODO⟩, "t 🏁 EndOfList", "n.md", "- [ ] t", 0⟩
      [⟨⟨"x", StatusType.DONE⟩, "t 🏁 EndOfList", "n.md", "- [x] t 🏁 EndOfList", 1⟩]
      "archive.md"
      ⟨⟨"x", StatusType.DONE⟩, "t 🏁 EndOfList", "n.md", "- [x] t 🏁 EndOfList", 1⟩
      (by decide) (by decide) (by decide) (by decide) (by decide) (by decide)).2
      (by decide) (by decide)⟩

/-- C10: on every input and every branch (including unrecognized triggers),
the returned list is either exactly the input list, or the input list with
every element identical to its last element removed, the surviving elements
kept unchanged and in their original order; in particular the result is
always a sublist of the input — no task is ever added, modified or
reordered. (In the embedding the returned list is by construction
independent of the injected fileWriter, whose invocations are only
logged.) -/
theorem handleOnCompletion_result_is_input_or_filtered (task : Task) (tasks : List Task)
    (p : String) :
    ((handleOnCompletion task tasks p).1 = tasks ∨
      ∃ last, tasks.getLast? = some last ∧
        (handleOnCompletion task tasks p).1 = tasks.filter (fun t => t ≠ last)) ∧
      ((handleOnCompletion task tasks p).1).Sublist tasks := by
  cases hlast : tasks.getLast? with
  | none =>
    unfold handleOnCompletion
    rw [hlast]
    exact ⟨Or.inl rfl, List.Sublist.refl _⟩
  | some last =>
    have hbody := handleOnCompletion_of_getLast task tasks p last hlast
    have hcases : handleOnCompletionBody task tasks p last = (tasks, ([] : List WriterCall)) ∨
        (handleOnCompletionBody task tasks p last).1 =
          returnWithoutCompletedInstance tasks last := by
      unfold handleOnCompletionBody
      split_ifs <;> simp
    rcases hcases with h | h
    · rw [hbody, h]
      exact ⟨Or.inl rfl, List.Sublist.refl _⟩
    · rw [hbody]
      constructor
      · exact Or.inr ⟨last, rfl, h⟩
      · rw [h]
        exact List.filter_sublist tasks

end OnCompletion
